import Mathlib

/-!
Verification development for the full-text-search query core
(`src/packages/orama/src/methods/search-fulltext.ts`).

Strings are modelled as Lean `String`/`List Char`; JavaScript numbers used as
scores and relevance parameters are modelled as `ℚ`; internal document
identifiers are `Nat`.  External collaborators (index, sorter, pinning engine,
facet/group engines, hooks) are modelled as function-valued fields of the
`Orama` structure, following the collaborator contracts of the specification.
-/

/-! ## JavaScript string helpers -/

/-- ASCII whitespace as matched by the JavaScript class `\s` (and removed by
`String.prototype.trim`) on the ASCII range: space, tab, LF, CR, VT, FF. -/
def isJsSpace (c : Char) : Bool :=
  c == ' ' || c == '\t' || c == '\n' || c == '\r' || c == '\x0b' || c == '\x0c'

/-- JavaScript `String.prototype.trim`: strip leading and trailing whitespace. -/
def jsTrim (s : String) : String :=
  ⟨((s.data.dropWhile isJsSpace).reverse.dropWhile isJsSpace).reverse⟩

/-- JavaScript `String.prototype.startsWith`. -/
def jsStartsWith (s pre : String) : Bool :=
  pre.data.isPrefixOf s.data

/-- JavaScript `String.prototype.endsWith`. -/
def jsEndsWith (s suf : String) : Bool :=
  suf.data.reverse.isPrefixOf s.data.reverse

/-- JavaScript `String.prototype.includes`: substring containment. -/
def jsIncludes (s sub : String) : Bool :=
  decide (sub.data <:+: s.data)

/-- Helper for `term.split(/\s+/).filter(Boolean)`: collect the maximal runs of
non-whitespace characters. -/
def splitWsAux : List Char → List Char → List String
  | [], acc => if acc.isEmpty then [] else [⟨acc.reverse⟩]
  | c :: cs, acc =>
    if isJsSpace c then
      if acc.isEmpty then splitWsAux cs [] else (⟨acc.reverse⟩ : String) :: splitWsAux cs []
    else splitWsAux cs (c :: acc)

/-- JavaScript `s.split(/\s+/).filter(Boolean)`: the whitespace-separated words
of `s`, empties dropped. -/
def splitWsWords (s : String) : List String :=
  splitWsAux s.data []

/-- Helper for `path.split('.')`: split a character list at every occurrence of
`sep` (JavaScript `String.prototype.split` with a one-character separator). -/
def splitOnCharAux (sep : Char) : List Char → List Char → List String
  | [], acc => [⟨acc.reverse⟩]
  | c :: cs, acc =>
    if c == sep then (⟨acc.reverse⟩ : String) :: splitOnCharAux sep cs []
    else splitOnCharAux sep cs (c :: acc)

/-- JavaScript `path.split('.')`. -/
def splitOnChar (sep : Char) (s : String) : List String :=
  splitOnCharAux sep s.data []

/-! ## Regular-expression model

The source builds regular expressions of two shapes only:
`new RegExp("\\b" + escapeRegex(token) + "\\b")` and
`new RegExp(escapeRegex(token))`, and calls `.test` on them.  We model exactly
the fragment of JavaScript regex semantics these patterns can use: a pattern is
parsed into a sequence of atoms (a literal character, the word-boundary
assertion `\b`, or the wildcard `.`), and `test` succeeds if the atom sequence
matches starting at some position of the subject string. -/

/-- An ASCII word character, the class `\w` = `[A-Za-z0-9_]` of JavaScript. -/
def isWordChar (c : Char) : Bool :=
  (decide ('A' ≤ c) && decide (c ≤ 'Z')) || (decide ('a' ≤ c) && decide (c ≤ 'z')) ||
    (decide ('0' ≤ c) && decide (c ≤ '9')) || (c == '_')

/-- Whether an optional character is a word character (`none` = a string edge,
which counts as non-word for `\b`). -/
def optIsWord : Option Char → Bool
  | none => false
  | some c => isWordChar c

/-- The characters escaped by `escapeRegex`, from the character class
`[.*+?^$\x7b\x7d()|[\]\\]` in the source. -/
def regexMetachars : List Char :=
  ['.', '*', '+', '?', '^', '$', '\x7b', '\x7d', '(', ')', '|', '[', ']', '\\']

/-- Embeds `escapeRegex` (search-fulltext.ts): prefix every regex metacharacter
with a backslash (`str.replace(/[.*+?^$\x7b\x7d()|[\]\\]/g, '\\$&')`). -/
def escapeRegex (s : List Char) : List Char :=
  (s.map (fun c => if regexMetachars.contains c then ['\\', c] else [c])).flatten

/-- One atom of the regex fragment used by the source. -/
inductive RAtom where
  | wb : RAtom
  | lit : Char → RAtom
  | anychar : RAtom
deriving DecidableEq

/-- Parse a pattern string into atoms: `\b` is the word-boundary assertion, any
other backslash-escaped character is a literal, an unescaped `.` is the
wildcard, and every other character is a literal.  (The patterns the source
builds contain no other regex constructs: every metacharacter of the token is
escaped by `escapeRegex` first.) -/
def parseRegex : List Char → List RAtom
  | [] => []
  | c :: rest =>
    if c == '\\' then
      match rest with
      | [] => []
      | d :: rest2 => (if d == 'b' then RAtom.wb else RAtom.lit d) :: parseRegex rest2
    else if c == '.' then RAtom.anychar :: parseRegex rest
    else RAtom.lit c :: parseRegex rest

/-- Match an atom sequence at the current position.  `prev` is the character
immediately before the current position (`none` at the start of the subject),
needed by the word-boundary assertion. -/
def matchHere : List RAtom → Option Char → List Char → Bool
  | [], _, _ => true
  | RAtom.wb :: ps, prev, s => (optIsWord prev != optIsWord s.head?) && matchHere ps prev s
  | RAtom.lit _ :: _, _, [] => false
  | RAtom.lit c :: ps, _, d :: s => (c == d) && matchHere ps (some d) s
  | RAtom.anychar :: _, _, [] => false
  | RAtom.anychar :: ps, _, d :: s => (d != '\n') && matchHere ps (some d) s

/-- Try to match at the current position or at any later position. -/
def searchFrom (ps : List RAtom) : Option Char → List Char → Bool
  | prev, [] => matchHere ps prev []
  | prev, c :: rest => matchHere ps prev (c :: rest) || searchFrom ps (some c) rest

/-- JavaScript `RegExp.prototype.test` for the modelled fragment. -/
def regexTest (ps : List RAtom) (s : List Char) : Bool :=
  searchFrom ps none s

/-- The test `/^\w+$/.test(searchTerm)` of the source: the token is nonempty
and consists solely of ASCII word characters. -/
def isWordOnly (t : List Char) : Bool :=
  (!t.isEmpty) && t.all isWordChar

/-- Embeds the per-token check in `matchesExactTerm` (search-fulltext.ts):
a word-only token is wrapped in `\b ... \b`, any other token is matched as an
escaped literal. -/
def matchesToken (propValue : List Char) (searchTerm : List Char) : Bool :=
  if isWordOnly searchTerm then
    regexTest (parseRegex (['\\', 'b'] ++ escapeRegex searchTerm ++ ['\\', 'b'])) propValue
  else
    regexTest (parseRegex (escapeRegex searchTerm)) propValue

/-- The last character of `t`, or `prev` when `t` is empty: the character
preceding the position reached after consuming `t`, starting from a position
preceded by `prev`. -/
def lastCtx (prev : Option Char) : List Char → Option Char
  | [] => prev
  | c :: t => lastCtx (some c) t

/-- Specification-level predicate: `t` occurs in `s` as a substring delimited
by word boundaries (the characters adjacent to the occurrence, when they exist,
are non-word characters). -/
def wordBoundaryOccurs (t s : List Char) : Prop :=
  ∃ pre post, s = pre ++ t ++ post ∧
    optIsWord (lastCtx none pre) = false ∧ optIsWord post.head? = false

/-! ## Documents and nested property access -/

/-- A JavaScript document value: a string, a number, a boolean, `null`, or a
plain object with string keys.  (Absent fields are modelled as keys missing
from the association list.) -/
inductive DocValue where
  | vstr : String → DocValue
  | vnum : ℚ → DocValue
  | vbool : Bool → DocValue
  | vnull : DocValue
  | vobj : List (String × DocValue) → DocValue

/-- Embeds `getPropValue` (search-fulltext.ts): traverse the dot-separated
`path` through nested objects; any missing segment, or a traversed value that
is not a non-null object, yields `undefined` (here `none`). -/
def getPropValueKeys : DocValue → List String → Option DocValue
  | v, [] => some v
  | DocValue.vobj fields, key :: keys =>
    match fields.lookup key with
    | some v => getPropValueKeys v keys
    | none => none
  | _, _ :: _ => none

/-- Embeds `getPropValue` (search-fulltext.ts): `path.split('.')` followed by
the guarded traversal. -/
def getPropValue (doc : DocValue) (path : String) : Option DocValue :=
  getPropValueKeys doc (splitOnChar '.' path)

/-! ## Data model of the search core -/

/-- A `TokenScore` pair: internal document identifier and score. -/
abbrev TokenScore := Nat × ℚ

/-- BM25-style relevance parameters; every field is optional, mirroring the
TypeScript `BM25Params` with optional `k`, `b`, `d`. -/
structure BM25Params where
  k : Option ℚ
  b : Option ℚ
  d : Option ℚ
deriving DecidableEq

/-- Embeds `defaultBM25Params` (search-fulltext.ts). -/
def defaultBM25Params : BM25Params :=
  { k := some 1.2, b := some 0.75, d := some 0.5 }

/-- Embeds `applyDefault` (search-fulltext.ts).  The source mutates `r` in
place (`r.k = r.k ?? defaultBM25Params.k` and so on) where
`r = bm25Relevance ?? {}`; when the caller supplied a relevance object, `r`
aliases it.  The first component is the returned (complete) object; the second
component is the post-call state of the caller-supplied object: the same
mutated object when one was supplied, `none` otherwise. -/
def applyDefault (bm25Relevance : Option BM25Params) : BM25Params × Option BM25Params :=
  let r0 := bm25Relevance.getD { k := none, b := none, d := none }
  let r1 := { r0 with k := r0.k.or defaultBM25Params.k }
  let r2 := { r1 with b := r1.b.or defaultBM25Params.b }
  let r3 := { r2 with d := r2.d.or defaultBM25Params.d }
  (r3, bm25Relevance.map (fun _ => r3))

/-- The raw and formatted elapsed time of the result envelope. -/
structure ElapsedTime where
  raw : Nat
  formatted : String
deriving DecidableEq

/-- The `properties` search parameter: `'*'` or an explicit list. -/
inductive PropertiesParam where
  | star : PropertiesParam
  | list : List String → PropertiesParam
deriving DecidableEq

/-- A where-clause; the core only inspects whether it has any keys
(`Object.keys(params.where ?? {}).length > 0`), its contents are interpreted by
the external filter engine. -/
structure WhereClause where
  keys : List String
deriving DecidableEq

/-- A fetched hit: internal identifier, score, document. -/
abbrev Hit := Nat × ℚ × DocValue

/-- An entry of the custom-sort input: identifier, score and the (possibly
unresolved) document.  The source types the third component as non-null via the
`d!` assertion, but at runtime it is `undefined` when the store lookup missed,
which the `Option` records. -/
abbrev SortItem := Nat × ℚ × Option DocValue

/-- The `sortBy` parameter: a field specification for the external sort engine,
or a caller-supplied comparator (JavaScript comparator convention: a negative
number means the first argument sorts first). -/
inductive SortByParam where
  | field : String → SortByParam
  | comparator : (SortItem → SortItem → Int) → SortByParam

/-- The `SearchParams` query descriptor (the fields consumed by the full-text
search core). -/
structure SearchParams where
  term : Option String := none
  properties : Option PropertiesParam := none
  whereClause : Option WhereClause := none
  exact : Option Bool := none
  preserveSpaces : Option Bool := none
  tolerance : Option Nat := none
  boost : Option (List (String × ℚ)) := none
  relevance : Option BM25Params := none
  threshold : Option ℚ := none
  limit : Option Nat := none
  offset : Option Nat := none
  distinctOn : Option String := none
  includeVectors : Option Bool := none
  preflight : Option Bool := none
  sortBy : Option SortByParam := none
  facets : Option (List String) := none
  groupBy : Option (List String) := none

/-- The result envelope. -/
structure Results where
  elapsed : ElapsedTime
  hits : List Hit
  count : Nat
  facets : Option (List (String × Nat))
  groups : Option (List (String × List Nat))

/-- Validation errors thrown by the core; `unknownIndex prop valid` models
`createError('UNKNOWN_INDEX', prop, valid)` (errors.ts, not under src/): an
error naming the offending property and carrying the comma-joined list of
valid properties. -/
inductive SearchError where
  | unknownIndex : String → String → SearchError
deriving DecidableEq

/-- The arguments handed to the index's scored-search operation
(`orama.index.search`). -/
structure IndexSearchArgs where
  term : String
  language : Option String
  properties : List String
  exact : Bool
  tolerance : Nat
  boost : List (String × ℚ)
  relevance : BM25Params
  docsCount : Nat
  whereFiltersIDs : Option (List Nat)
  threshold : ℚ

/-- A search instance.  The document store and the external collaborators
(index operations, sort engine, pinning engine, facet/group engines, hooks) are
modelled as function-valued fields, following the collaborator contracts of the
specification; the core treats them as opaque. -/
structure Orama where
  /-- The document store: internal identifier to document.  `get`/`getMultiple`
  are lookups, `getAll` enumerates the list. -/
  docs : List (Nat × DocValue)
  /-- Index: `getSearchablePropertiesWithTypes`. -/
  searchablePropertiesWithTypes : List (String × String)
  /-- Index: `getSearchableProperties`. -/
  searchableProperties : List String
  /-- Index: the scored-search operation `index.search`. -/
  indexSearch : IndexSearchArgs → List TokenScore
  /-- Index: `searchByWhereClause`, the set of identifiers satisfying the
  filter clause. -/
  whereSearch : WhereClause → List Nat
  /-- Index: `searchByGeoWhereClause`; `none` signals "not a pure geo query". -/
  geoSearch : WhereClause → Option (List TokenScore)
  /-- `Object.keys(orama.data.index.vectorIndexes)`. -/
  vectorProperties : List String
  /-- The per-instance cache `orama.caches['propertiesToSearch']`. -/
  cachedPropertiesToSearch : Option (List String)
  /-- Sort engine: `orama.sorter.sortBy`, returning pairs in its own external
  identifier space. -/
  sorterSortBy : List TokenScore → String → List (String × ℚ)
  /-- `getInternalDocumentId`: translate an external identifier back into the
  internal identifier space. -/
  internalIdOf : String → Nat
  /-- Modelled from the spec: `applyPinningRules` (pinning-manager.ts, not
  under src/) — the external rule-driven reorder/injection engine, applied to
  the sorted candidates together with the original query term. -/
  pinning : List TokenScore → Option String → List TokenScore
  /-- Modelled from the spec: `getFacets` (facets.ts, not under src/), computed
  over the full pre-pagination candidate sequence. -/
  facetsEngine : List TokenScore → List String → List (String × Nat)
  /-- Modelled from the spec: `getGroups` (groups.ts, not under src/). -/
  groupsEngine : List TokenScore → List String → List (String × List Nat)
  /-- Modelled from the spec: the registered pre-search hooks
  (`runBeforeSearch`, hooks.ts, not under src/): each receives the instance,
  the params and the language and may mutate the params. -/
  beforeSearch : List (SearchParams → SearchParams)
  /-- Modelled from the spec: the registered post-search hooks
  (`runAfterSearch`): each additionally receives the computed result and may
  inspect or mutate it. -/
  afterSearch : List (Results → Results)
  /-- `orama.formatElapsedTime`. -/
  formatElapsedTime : Nat → ElapsedTime

/-- The document store's `get`: resolve an internal identifier. -/
def docStoreGet (orama : Orama) (id : Nat) : Option DocValue :=
  orama.docs.lookup id

/-- Modelled from the spec: `count` (methods/docs.ts, not under src/) — the
total number of live documents. -/
def countDocs (orama : Orama) : Nat :=
  orama.docs.length

/-! ## Exact-match filtering -/

/-- Embeds `matchesExactTerm` (search-fulltext.ts): a property matches when its
value is a string that (a) under strict space matching contains the original
(untrimmed) term as a substring and (b) is matched by every split token, a
word-only token via `\b...\b`, any other token as an escaped literal. -/
def matchesExactTerm (doc : DocValue) (prop : String) (originalTerm : String)
    (searchTerms : List String) (preserveSpaces hasLeadingSpace hasTrailingSpace : Bool) :
    Bool :=
  match getPropValue doc prop with
  | some (DocValue.vstr propValue) =>
    if preserveSpaces && (hasLeadingSpace || hasTrailingSpace)
        && !(jsIncludes propValue originalTerm) then
      false
    else
      searchTerms.all (fun searchTerm => matchesToken propValue.data searchTerm.data)
  | _ => false

/-- Embeds `filterBySpaceMatch` (search-fulltext.ts): keep the candidates whose
stored document has some checked string property literally containing the
(whitespace-only) term; a candidate missing from the store is dropped. -/
def filterBySpaceMatch (results : List TokenScore) (orama : Orama) (term : String)
    (propertiesToSearch : List String) : List TokenScore :=
  results.filter (fun ts =>
    match docStoreGet orama ts.1 with
    | none => false
    | some doc =>
      propertiesToSearch.any (fun prop =>
        match getPropValue doc prop with
        | some (DocValue.vstr propValue) => jsIncludes propValue term
        | _ => false))

/-- Embeds `filterExactMatches` (search-fulltext.ts). -/
def filterExactMatches (orama : Orama) (results : List TokenScore) (term : String)
    (propertiesToSearch : List String) (preserveSpaces : Bool) : List TokenScore :=
  let trimmedTerm := jsTrim term
  let hasLeadingSpace := jsStartsWith term " "
  let hasTrailingSpace := jsEndsWith term " "
  if trimmedTerm.data.isEmpty then
    if preserveSpaces && (hasLeadingSpace || hasTrailingSpace) then
      filterBySpaceMatch results orama term propertiesToSearch
    else results
  else
    let searchTerms := splitWsWords trimmedTerm
    if searchTerms.isEmpty then results
    else
      results.filter (fun ts =>
        match docStoreGet orama ts.1 with
        | none => false
        | some doc =>
          propertiesToSearch.any (fun prop =>
            matchesExactTerm doc prop term searchTerms preserveSpaces hasLeadingSpace
              hasTrailingSpace))

/-! ## Candidate resolution -/

/-- JavaScript truthiness of the optional `term` string (`undefined` and the
empty string are falsy). -/
def termTruthy : Option String → Bool
  | none => false
  | some s => !s.data.isEmpty

/-- JavaScript truthiness of the optional `properties` parameter (`'*'` and any
array, even empty, are truthy). -/
def propsTruthy : Option PropertiesParam → Bool
  | none => false
  | some _ => true

/-- The searchable string properties as computed on a cache miss:
`getSearchableProperties` filtered to those whose type tag starts with
`"string"`. -/
def computedPropertiesToSearch (orama : Orama) : List String :=
  orama.searchableProperties.filter (fun prop =>
    jsStartsWith ((orama.searchablePropertiesWithTypes.lookup prop).getD "") "string")

/-- The searchable string properties actually used: the per-instance cache when
populated, else the computed set.  (The cache-populating assignment is a
per-instance side effect not observable within one call.) -/
def effectiveSearchableProps (orama : Orama) : List String :=
  match orama.cachedPropertiesToSearch with
  | some cached => cached
  | none => computedPropertiesToSearch orama

/-- Embeds the explicit-property validation of `innerFullTextSearch`
(search-fulltext.ts): every entry of an explicit list must be a member of the
searchable string-property set, else `createError('UNKNOWN_INDEX', prop,
propertiesToSearch.join(', '))` is thrown at the first offender; on success the
cached set is narrowed to the listed properties, preserving its order. -/
def validateProperties (orama : Orama) (properties : Option PropertiesParam) :
    Except SearchError (List String) :=
  let cached := effectiveSearchableProps orama
  match properties with
  | some (PropertiesParam.list props) =>
    match props.find? (fun prop => !cached.contains prop) with
    | some bad =>
      Except.error (SearchError.unknownIndex bad (String.intercalate ", " cached))
    | none => Except.ok (cached.filter (fun prop => props.contains prop))
  | _ => Except.ok cached

/-- Embeds `innerFullTextSearch` (search-fulltext.ts).  A thrown validation
error is modelled as `Except.error`.  `params.where!` (asserted non-null when
`hasFilters` holds) is modelled by `getD ⟨[]⟩`, which is only reachable when
the where-clause is present. -/
def innerFullTextSearch (orama : Orama) (params : SearchParams) (language : Option String) :
    Except SearchError (List TokenScore) :=
  let term := params.term
  let properties := params.properties
  let preserveSpaces := if params.exact.getD false then params.preserveSpaces.getD false
    else false
  match validateProperties orama properties with
  | Except.error e => Except.error e
  | Except.ok propertiesToSearch =>
    let hasFilters := ((params.whereClause.map WhereClause.keys).getD []).length > 0
    let whereFiltersIDs : Option (List Nat) :=
      if hasFilters then some (orama.whereSearch (params.whereClause.getD ⟨[]⟩)) else none
    let threshold := params.threshold.getD 1
    if termTruthy term || propsTruthy properties then
      let docsCount := countDocs orama
      let searched := orama.indexSearch
        { term := term.getD ""
          language := language
          properties := propertiesToSearch
          exact := params.exact.getD false
          tolerance := params.tolerance.getD 0
          boost := params.boost.getD []
          relevance := (applyDefault params.relevance).1
          docsCount := docsCount
          whereFiltersIDs := whereFiltersIDs
          threshold := threshold }
      if params.exact.getD false && termTruthy term then
        Except.ok (filterExactMatches orama searched (term.getD "") propertiesToSearch
          preserveSpaces)
      else Except.ok searched
    else
      if hasFilters then
        match orama.geoSearch (params.whereClause.getD ⟨[]⟩) with
        | some geoResults => Except.ok geoResults
        | none =>
          Except.ok ((whereFiltersIDs.getD []).map (fun k => (k, (0 : ℚ))))
      else
        Except.ok ((orama.docs.map Prod.fst).map (fun k => (k, (0 : ℚ))))

/-! ## Sorting, fetching, and the orchestrator -/

/-- Stable insertion into a list sorted by `le`. -/
def insertSorted (le : α → α → Bool) (x : α) : List α → List α
  | [] => [x]
  | y :: l => if le y x then y :: insertSorted le x l else x :: y :: l

/-- A deterministic stable sort (insertion sort), modelling JavaScript's stable
`Array.prototype.sort` with a boolean "`y` sorts no later than `x`" relation. -/
def sortWith (le : α → α → Bool) (l : List α) : List α :=
  l.foldr (insertSorted le) []

/-- Modelled from the spec: `sortTokenScorePredicate` (utils.ts, not under
src/) — the default order, score descending, with a deterministic stable
tie-break. -/
def sortTokensByScore (l : List TokenScore) : List TokenScore :=
  sortWith (fun y x => decide (x.2 ≤ y.2)) l

/-- JavaScript `docsWithIdAndScore.sort(params.sortBy)` with the caller's
comparator (stable, negative result ⇒ first argument first). -/
def sortByComparator (cmp : SortItem → SortItem → Int) (l : List SortItem) : List SortItem :=
  sortWith (fun y x => decide (cmp y x ≤ 0)) l

/-- Embeds the custom-sort input construction of `fullTextSearch`
(search-fulltext.ts): `getMultiple` over the candidate identifiers, then
`docs.map((d, i) => [uniqueDocsArray[i][0], uniqueDocsArray[i][1], d!])`.  The
`d!` non-null assertion has no runtime effect, so the document slot holds the
raw lookup result, `none` when the store lookup missed. -/
def customSortInput (orama : Orama) (uniqueDocsArray : List TokenScore) : List SortItem :=
  let ids := uniqueDocsArray.map Prod.fst
  let docs := ids.map (docStoreGet orama)
  docs.mapIdx (fun i d =>
    (((uniqueDocsArray.get? i).getD (0, 0)).1, ((uniqueDocsArray.get? i).getD (0, 0)).2, d))

/-- Modelled from the spec: `fetchDocuments` (methods/search.ts, not under
src/) — the plain ranged fetch of the page `[offset, offset + limit)`; an entry
whose store lookup misses is an unresolved (`none`) entry. -/
def fetchDocuments (orama : Orama) (arr : List TokenScore) (offset limit : Nat) :
    List (Option Hit) :=
  ((arr.drop offset).take limit).map (fun ts =>
    match docStoreGet orama ts.1 with
    | some d => some (ts.1, ts.2, d)
    | none => none)

/-- Scalar equality of optional distinct-key values (documents compare per
leaf; object-valued keys never compare equal). -/
def scalarEqb : Option DocValue → Option DocValue → Bool
  | none, none => true
  | some (DocValue.vstr a), some (DocValue.vstr b) => a == b
  | some (DocValue.vnum a), some (DocValue.vnum b) => a == b
  | some (DocValue.vbool a), some (DocValue.vbool b) => a == b
  | some DocValue.vnull, some DocValue.vnull => true
  | _, _ => false

/-- Keep the first resolved hit per distinct value of the key property. -/
def dedupByKey (key : String) : List Hit → List (Option DocValue) → List Hit
  | [], _ => []
  | h :: rest, seen =>
    let v := getPropValue h.2.2 key
    if seen.any (scalarEqb v) then dedupByKey key rest seen
    else h :: dedupByKey key rest (v :: seen)

/-- Modelled from the spec: `fetchDocumentsWithDistinct` (methods/search.ts,
not under src/) — the dedup-aware fetch: resolve candidates, keep the first hit
per distinct key value, then skip `offset` matches and return at most `limit`
documents. -/
def fetchDocumentsWithDistinct (orama : Orama) (arr : List TokenScore)
    (offset limit : Nat) (key : String) : List (Option Hit) :=
  let resolved := arr.filterMap (fun ts =>
    (docStoreGet orama ts.1).map (fun d => (ts.1, ts.2, d)))
  (((dedupByKey key resolved []).drop offset).take limit).map some

/-- Modelled from the spec: `removeVectorsFromHits` (utils.ts, not under
src/) — strip the vector-typed top-level fields from a hit's document. -/
def removeVectorsFromHit (vectorProperties : List String) (h : Hit) : Hit :=
  match h with
  | (id, score, DocValue.vobj fields) =>
    (id, score, DocValue.vobj (fields.filter (fun kv => !vectorProperties.contains kv.1)))
  | other => other

/-- Embeds `performSearchLogic` (search-fulltext.ts), the core synchronous unit
of work.  `timeStart` and `timeNow` are the two readings of
`getNanosecondsTime` (at entry of `fullTextSearch` and at the elapsed stamp). -/
def performSearchLogic (orama : Orama) (params : SearchParams) (language : Option String)
    (timeStart timeNow : Nat) : Except SearchError Results :=
  let vectorProperties := orama.vectorProperties
  let shouldCalculateFacets := match params.facets with
    | some fs => decide (fs.length > 0)
    | none => false
  let limit := params.limit.getD 10
  let offset := params.offset.getD 0
  let includeVectors := params.includeVectors.getD false
  let isPreflight := params.preflight == some true
  match innerFullTextSearch orama params language with
  | Except.error e => Except.error e
  | Except.ok uniqueDocsArray0 =>
    let sorted := match params.sortBy with
      | some (SortByParam.comparator cmp) =>
        let docsWithIdAndScore := customSortInput orama uniqueDocsArray0
        (sortByComparator cmp docsWithIdAndScore).map (fun item => (item.1, item.2.1))
      | some (SortByParam.field f) =>
        (orama.sorterSortBy uniqueDocsArray0 f).map (fun p =>
          (orama.internalIdOf p.1, p.2))
      | none => sortTokensByScore uniqueDocsArray0
    let uniqueDocsArray := orama.pinning sorted params.term
    let fetched : Option (List (Option Hit)) :=
      if !isPreflight then
        some (match params.distinctOn with
          | some key => fetchDocumentsWithDistinct orama uniqueDocsArray offset limit key
          | none => fetchDocuments orama uniqueDocsArray offset limit)
      else none
    let baseHits : List Hit := match fetched with
      | some rs => rs.filterMap id
      | none => []
    let hits := if !includeVectors then baseHits.map (removeVectorsFromHit vectorProperties)
      else baseHits
    Except.ok
      { elapsed := orama.formatElapsedTime (timeNow - timeStart)
        hits := hits
        count := uniqueDocsArray.length
        facets := if shouldCalculateFacets then
            some (orama.facetsEngine uniqueDocsArray (params.facets.getD [])) else none
        groups := match params.groupBy with
          | some g => some (orama.groupsEngine uniqueDocsArray g)
          | none => none }

/-- Embeds `executeSearchAsync` (search-fulltext.ts): run the pre-search hooks
(which may mutate the params), the core logic, then the post-search hooks
(which may mutate the result). -/
def executeSearchAsync (orama : Orama) (params : SearchParams) (language : Option String)
    (timeStart timeNow : Nat) : Except SearchError Results :=
  let params2 := orama.beforeSearch.foldl (fun p h => h p) params
  match performSearchLogic orama params2 language timeStart timeNow with
  | Except.error e => Except.error e
  | Except.ok r => Except.ok (orama.afterSearch.foldl (fun res h => h res) r)

/-- The return shape of `fullTextSearch`: a direct value when no hooks are
registered, a pending (promise-wrapped) value of the same shape otherwise. -/
inductive SearchReturn where
  | sync : Except SearchError Results → SearchReturn
  | pending : Except SearchError Results → SearchReturn

/-- The eventual result of either return shape. -/
def SearchReturn.result : SearchReturn → Except SearchError Results
  | SearchReturn.sync r => r
  | SearchReturn.pending r => r

/-- Embeds `fullTextSearch` (search-fulltext.ts): fork on
`orama.beforeSearch?.length || orama.afterSearch?.length`. -/
def fullTextSearch (orama : Orama) (params : SearchParams) (language : Option String)
    (timeStart timeNow : Nat) : SearchReturn :=
  let asyncNeeded := orama.beforeSearch.length != 0 || orama.afterSearch.length != 0
  if asyncNeeded then
    SearchReturn.pending (executeSearchAsync orama params language timeStart timeNow)
  else
    SearchReturn.sync (performSearchLogic orama params language timeStart timeNow)

/-- The `count` field of the eventual envelope, when the query did not fail. -/
def countOf (s : SearchReturn) : Option Nat :=
  match s.result with
  | Except.ok r => some r.count
  | Except.error _ => none

/-- Equality of two eventual results in every envelope field except
`elapsed`. -/
def sameExceptElapsed : Except SearchError Results → Except SearchError Results → Prop
  | Except.error e, Except.error e' => e = e'
  | Except.ok r, Except.ok r' =>
    r.hits = r'.hits ∧ r.count = r'.count ∧ r.facets = r'.facets ∧ r.groups = r'.groups
  | _, _ => False

/-! ## Concrete instances used to exercise the definitions -/

/-- A minimal instance: empty store and trivial collaborators (no pinning
rules, no hooks). -/
def baseOrama : Orama :=
  { docs := []
    searchablePropertiesWithTypes := []
    searchableProperties := []
    indexSearch := fun _ => []
    whereSearch := fun _ => []
    geoSearch := fun _ => none
    vectorProperties := []
    cachedPropertiesToSearch := none
    sorterSortBy := fun _ _ => []
    internalIdOf := fun _ => 0
    pinning := fun c _ => c
    facetsEngine := fun _ _ => []
    groupsEngine := fun _ _ => []
    beforeSearch := []
    afterSearch := []
    formatElapsedTime := fun n => { raw := n, formatted := "" } }

/-- An instance whose store resolves identifier 1 only. -/
def c1Orama : Orama :=
  { baseOrama with docs := [(1, DocValue.vstr "a")] }

/-- An instance indexing exactly the string properties `title` and `body`. -/
def c3Orama : Orama :=
  { baseOrama with
    searchableProperties := ["title", "body"]
    searchablePropertiesWithTypes := [("title", "string"), ("body", "string")] }

/-- An instance with a single no-op pre-search hook. -/
def c5Orama : Orama :=
  { baseOrama with beforeSearch := [fun p => p] }

/-- An instance storing three documents. -/
def c7Orama : Orama :=
  { baseOrama with
    docs := [(1, DocValue.vnull), (2, DocValue.vnull), (3, DocValue.vnull)] }

/-- An instance storing twenty-five documents. -/
def orama25 : Orama :=
  { baseOrama with docs := (List.range 25).map (fun i => (i, DocValue.vnull)) }

/-- The trivial replacement oracles used to instantiate the quantifiers of the
unknown-property theorem. -/
def trivialIndexSearch : IndexSearchArgs → List TokenScore := fun _ => []

/-- See `trivialIndexSearch`. -/
def trivialWhereSearch : WhereClause → List Nat := fun _ => []

/-- See `trivialIndexSearch`. -/
def trivialGeoSearch : WhereClause → Option (List TokenScore) := fun _ => none

/-! ## General helper lemmas -/

theorem insertSorted_length (le : α → α → Bool) (x : α) (l : List α) :
    (insertSorted le x l).length = l.length + 1 := by
  induction l with
  | nil => rfl
  | cons y l ih =>
    by_cases h : le y x = true
    · simp [insertSorted, h, ih]
    · simp [insertSorted, h]

theorem sortWith_length (le : α → α → Bool) (l : List α) :
    (sortWith le l).length = l.length := by
  induction l with
  | nil => rfl
  | cons y l ih => simp [sortWith, List.foldr_cons, insertSorted_length]
                   simpa [sortWith] using ih

/-! ## C4 and C2: relevance defaulting -/

/-- C4: the defaulting operation returns a complete relevance object in which
each of `k`, `b`, `d` equals the caller's value whenever that value is defined
(including `0`), else the system default `1.2`, `0.75`, `0.5`; with no
relevance object the result is `{k: 1.2, b: 0.75, d: 0.5}`, and with `{k: 0}`
the result preserves `k = 0` and fills `b` and `d` with the defaults. -/
theorem applyDefault_fills_only_undefined :
    (∀ r : BM25Params, (applyDefault (some r)).1 =
      { k := some (r.k.getD 1.2), b := some (r.b.getD 0.75), d := some (r.d.getD 0.5) }) ∧
    (applyDefault none).1 = { k := some 1.2, b := some 0.75, d := some 0.5 } ∧
    (applyDefault (some { k := some 0, b := none, d := none })).1 =
      { k := some 0, b := some 0.75, d := some 0.5 } := by
  refine ⟨fun r => ?_, rfl, rfl⟩
  obtain ⟨k, b, d⟩ := r
  cases k <;> cases b <;> cases d <;> rfl

/-- C2 counterexample: calling the defaulting operation on the caller-supplied
partial object `{k: 0}` leaves that object changed — the default `b` and `d`
values are written into it — contradicting the claim that the caller's params
object is left unchanged. -/
theorem applyDefault_mutates_caller_object :
    (applyDefault (some { k := some 0, b := none, d := none })).2 ≠
      some { k := some 0, b := none, d := none } := by
  simp [applyDefault, defaultBM25Params]

/-- C2 (amended): the search leaves the caller's params unchanged except for
the relevance object: when one is supplied, defaulting writes the default
values into each of its undefined fields in place (so a fully-specified object
is unchanged, and `{k: 0}` becomes `{k: 0, b: 0.75, d: 0.5}`); when none is
supplied nothing of the caller's is written. -/
theorem applyDefault_caller_object_state (o : Option BM25Params) :
    (applyDefault o).2 = o.map (fun r =>
      { k := some (r.k.getD 1.2), b := some (r.b.getD 0.75), d := some (r.d.getD 0.5) }) := by
  cases o with
  | none => rfl
  | some r =>
    obtain ⟨k, b, d⟩ := r
    cases k <;> cases b <;> cases d <;> rfl

/-! ## C9 and C10: algebraic properties of the exact-match filter -/

/-- C9: the exact-match filter is idempotent with respect to an unchanged
document store: applying it twice yields the same result as applying it
once. -/
theorem filterExactMatches_idempotent (orama : Orama) (results : List TokenScore)
    (term : String) (props : List String) (preserveSpaces : Bool) :
    filterExactMatches orama (filterExactMatches orama results term props preserveSpaces)
        term props preserveSpaces =
      filterExactMatches orama results term props preserveSpaces := by
  unfold filterExactMatches filterBySpaceMatch
  by_cases h1 : (jsTrim term).data.isEmpty = true
  · by_cases h2 : (preserveSpaces && (jsStartsWith term " " || jsEndsWith term " ")) = true
    · simp [h1, h2, List.filter_filter, Bool.and_self]
    · simp [h1, h2]
  · by_cases h3 : (splitWsWords (jsTrim term)).isEmpty = true
    · simp [h1, h3]
    · simp [h1, h3, List.filter_filter, Bool.and_self]

/-- C10: the exact-match filter only removes candidates: its output is a
subsequence of its input — every retained pair keeps its `(documentId, score)`
value and relative order, and no pair is added or rescored.  Likewise for the
whitespace-only branch. -/
theorem filterExactMatches_sublist (orama : Orama) (results : List TokenScore)
    (term : String) (props : List String) (preserveSpaces : Bool) :
    (filterExactMatches orama results term props preserveSpaces).Sublist results ∧
    ∀ rs : List TokenScore, (filterBySpaceMatch rs orama term props).Sublist rs := by
  constructor
  · unfold filterExactMatches filterBySpaceMatch
    by_cases h1 : (jsTrim term).data.isEmpty = true
    · by_cases h2 : (preserveSpaces && (jsStartsWith term " " || jsEndsWith term " ")) = true
      · simp [h1, h2]
      · simp [h1, h2]
    · by_cases h3 : (splitWsWords (jsTrim term)).isEmpty = true
      · simp [h1, h3]
      · simp [h1, h3]
  · intro rs
    exact List.filter_sublist rs

/-! ## C1: custom-sort input construction -/

theorem customSortInput_aux (orama : Orama) :
    ∀ arr : List TokenScore,
      List.mapIdx (fun i d =>
          (((arr.get? i).getD (0, 0)).1, ((arr.get? i).getD (0, 0)).2, d))
        ((arr.map Prod.fst).map (fun id => docStoreGet orama id)) =
      arr.map (fun ts => (ts.1, ts.2, docStoreGet orama ts.1)) := by
  intro arr
  induction arr with
  | nil => rfl
  | cons a arr ih =>
    simp only [List.map_cons, List.mapIdx_cons, List.get?_cons_succ, List.get?_cons_zero,
      Option.getD_some]
    exact congrArg (List.cons _) ih

/-- C1 counterexample: with a store resolving only identifier 1 and the
candidate sequence `[(1, 1), (2, 1)]`, the `(id, score, document)` sort-input
sequence handed to the comparator contains an entry whose identifier is not
resolvable in the store — contradicting the claim that such candidates are
silently excluded from it. -/
theorem customSortInput_keeps_unresolvable :
    ¬ (∀ item ∈ customSortInput c1Orama [(1, 1), (2, 1)],
        (docStoreGet c1Orama item.1).isSome = true) := by
  decide

/-- C1 (amended): a candidate whose identifier is not resolvable in the store
is not excluded from the custom-sort input: every candidate appears, in order,
zipped with the raw store-lookup result — an absent (`none`) document when the
lookup misses.  A missing document is still never an error. -/
theorem customSortInput_zips_every_candidate (orama : Orama) (arr : List TokenScore) :
    customSortInput orama arr = arr.map (fun ts => (ts.1, ts.2, docStoreGet orama ts.1)) := by
  unfold customSortInput
  exact customSortInput_aux orama arr

/-! ## C3: invalid property reference -/

/-- C3: a search whose explicit properties list contains an entry outside the
searchable string-property set fails immediately — with the same validation
error for every behaviour of the index search and filter oracles, hence before
any index access and without partially executing the query — naming the (first)
offending property and carrying the comma-joined valid-property list. -/
theorem innerFullTextSearch_unknown_property (orama : Orama) (params : SearchParams)
    (language : Option String) (props : List String) (bad : String)
    (hprops : params.properties = some (PropertiesParam.list props))
    (hbad : props.find? (fun p => !(effectiveSearchableProps orama).contains p) = some bad) :
    ∀ (f : IndexSearchArgs → List TokenScore) (g : WhereClause → List Nat)
      (geo : WhereClause → Option (List TokenScore)),
      innerFullTextSearch { orama with indexSearch := f, whereSearch := g, geoSearch := geo }
          params language =
        Except.error (SearchError.unknownIndex bad
          (String.intercalate ", " (effectiveSearchableProps orama))) := by
  intro f g geo
  have heff : effectiveSearchableProps
      { orama with indexSearch := f, whereSearch := g, geoSearch := geo } =
      effectiveSearchableProps orama := rfl
  simp only [innerFullTextSearch, validateProperties, heff, hprops, hbad]

/-- C3 witness: on an instance indexing only `title` and `body`, requesting the
property `nonexistent` fails with an error naming `nonexistent` and listing
`title, body`, whatever the index oracles do. -/
theorem innerFullTextSearch_unknown_property_witness :
    innerFullTextSearch
        { c3Orama with
          indexSearch := trivialIndexSearch
          whereSearch := trivialWhereSearch
          geoSearch := trivialGeoSearch }
        { properties := some (PropertiesParam.list ["nonexistent"]) } none =
      Except.error (SearchError.unknownIndex "nonexistent" "title, body") := by
  have h := innerFullTextSearch_unknown_property c3Orama
    { properties := some (PropertiesParam.list ["nonexistent"]) } none
    ["nonexistent"] "nonexistent" rfl (by decide) trivialIndexSearch trivialWhereSearch
    trivialGeoSearch
  rw [show String.intercalate ", " (effectiveSearchableProps c3Orama) = "title, body"
    from by decide] at h
  exact h

/-! ## C8: count is pagination-independent -/

theorem performSearchLogic_count_pagination (orama : Orama) (params : SearchParams)
    (lang : Option String) (t0 t1 : Nat) (l1 o1 l2 o2 : Option Nat) :
    (performSearchLogic orama { params with limit := l1, offset := o1 } lang t0 t1).map
        Results.count =
      (performSearchLogic orama { params with limit := l2, offset := o2 } lang t0 t1).map
        Results.count := by
  have hinner : innerFullTextSearch orama { params with limit := l1, offset := o1 } lang =
      innerFullTextSearch orama { params with limit := l2, offset := o2 } lang := rfl
  simp only [performSearchLogic, hinner]
  cases h : innerFullTextSearch orama { params with limit := l2, offset := o2 } lang with
  | error e => rfl
  | ok arr => rfl

/-- C8: the `count` field of the result envelope is the total number of
candidates prior to pagination and does not depend on `limit` or `offset`;
in particular, with 25 stored documents matched by the query, `limit = 10` and
`offset = 20`, the count is 25. -/
theorem search_count_pagination :
    (∀ (orama : Orama) (params : SearchParams) (lang : Option String) (t0 t1 : Nat)
        (l1 o1 l2 o2 : Option Nat),
        orama.beforeSearch = [] → orama.afterSearch = [] →
        countOf (fullTextSearch orama { params with limit := l1, offset := o1 } lang t0 t1) =
          countOf (fullTextSearch orama { params with limit := l2, offset := o2 } lang t0 t1)) ∧
    countOf (fullTextSearch orama25 { limit := some 10, offset := some 20 } none 0 0) =
      some 25 := by
  constructor
  · intro orama params lang t0 t1 l1 o1 l2 o2 hb ha
    have hcount := performSearchLogic_count_pagination orama params lang t0 t1 l1 o1 l2 o2
    simp only [fullTextSearch, hb, ha, List.length_nil, countOf, SearchReturn.result]
    cases h1 : performSearchLogic orama { params with limit := l1, offset := o1 } lang t0 t1 with
    | error e =>
      cases h2 : performSearchLogic orama { params with limit := l2, offset := o2 } lang t0 t1 with
      | error e2 => simp
      | ok r2 => rw [h1, h2] at hcount; simp [Except.map] at hcount
    | ok r1 =>
      cases h2 : performSearchLogic orama { params with limit := l2, offset := o2 } lang t0 t1 with
      | error e2 => rw [h1, h2] at hcount; simp [Except.map] at hcount
      | ok r2 =>
        rw [h1, h2] at hcount
        simp [Except.map] at hcount
        simp [hcount]
  · decide

/-- C8 witness: on the 25-document instance, the count is the same under the
pagination windows `limit = 10, offset = 20` and `limit = 3, offset = 0`. -/
theorem search_count_pagination_witness :
    countOf (fullTextSearch orama25 { limit := some 10, offset := some 20 } none 0 0) =
      countOf (fullTextSearch orama25 { limit := some 3, offset := some 0 } none 0 0) :=
  search_count_pagination.1 orama25 {} none 0 0 (some 10) (some 20) (some 3) (some 0) rfl rfl

/-! ## C7: empty term, no filters — full scan -/

theorem count_pair_zero (l : List (Nat × DocValue)) (i : Nat) :
    (l.map (fun p => (p.1, (0 : ℚ)))).count (i, 0) = (l.map Prod.fst).count i := by
  induction l with
  | nil => rfl
  | cons p l ih =>
    simp only [List.map_cons, List.count_cons, ih]
    have hcond : ((p.1, (0 : ℚ)) == (i, 0)) = (p.1 == i) := by
      by_cases h : p.1 = i <;> simp [h, Prod.ext_iff]
    rw [hcond]

/-- C7: for a query with an empty (or absent) term, no where-clause, no
explicit properties and no sort directive, on an instance with no pinning
rules and no hooks, the candidate set is exactly the stored documents, each
identifier once (given the store's identifiers are distinct) with score 0, and
the envelope's `count` equals the total number of stored documents. -/
theorem empty_term_no_filters_full_scan (orama : Orama) (params : SearchParams)
    (lang : Option String) (t0 t1 : Nat)
    (hterm : params.term = none ∨ params.term = some "")
    (hprops : params.properties = none)
    (hwhere : params.whereClause = none)
    (hsort : params.sortBy = none)
    (hpin : ∀ c t, orama.pinning c t = c)
    (hhb : orama.beforeSearch = []) (hha : orama.afterSearch = [])
    (hnodup : (orama.docs.map Prod.fst).Nodup) :
    innerFullTextSearch orama params lang =
        Except.ok (orama.docs.map (fun p => (p.1, (0 : ℚ)))) ∧
    (∀ i ∈ orama.docs.map Prod.fst,
        (orama.docs.map (fun p => (p.1, (0 : ℚ)))).count (i, 0) = 1) ∧
    countOf (fullTextSearch orama params lang t0 t1) = some orama.docs.length := by
  have hinner : innerFullTextSearch orama params lang =
      Except.ok (orama.docs.map (fun p => (p.1, (0 : ℚ)))) := by
    rcases hterm with h | h <;>
      simp [innerFullTextSearch, validateProperties, hprops, hwhere, h, termTruthy,
        propsTruthy, List.map_map, Function.comp]
  refine ⟨hinner, ?_, ?_⟩
  · intro i hi
    rw [count_pair_zero]
    exact List.count_eq_one_of_mem hnodup hi
  · simp only [fullTextSearch, hhb, hha, List.length_nil]
    simp only [countOf, SearchReturn.result]
    simp only [performSearchLogic, hinner, hsort]
    simp [hpin, sortTokensByScore, sortWith_length]

/-- C7 witness: on a three-document instance, the empty query enumerates all
three identifiers with score 0 and reports count 3. -/
theorem empty_term_no_filters_full_scan_witness :
    innerFullTextSearch c7Orama {} none = Except.ok [(1, 0), (2, 0), (3, 0)] ∧
    countOf (fullTextSearch c7Orama {} none 0 0) = some 3 := by
  have h := empty_term_no_filters_full_scan c7Orama {} none 0 0 (Or.inl rfl) rfl rfl rfl
    (fun c t => rfl) rfl rfl (by decide)
  exact ⟨h.1, h.2.2⟩

/-! ## C5: sync/async equivalence -/

theorem performSearchLogic_hooks_irrelevant (orama : Orama)
    (l1 : List (SearchParams → SearchParams)) (l2 : List (Results → Results))
    (params : SearchParams) (lang : Option String) (t0 t1 : Nat) :
    performSearchLogic { orama with beforeSearch := l1, afterSearch := l2 } params lang t0 t1 =
      performSearchLogic orama params lang t0 t1 := by
  cases orama
  rfl

theorem foldl_apply_id {α : Type} (l : List (α → α)) (hid : ∀ h ∈ l, h = id) (x : α) :
    l.foldl (fun p h => h p) x = x := by
  induction l generalizing x with
  | nil => rfl
  | cons h l ih =>
    have hh : h = id := hid h (List.mem_cons_self h l)
    simp only [List.foldl_cons, hh, id]
    exact ih (fun g hg => hid g (List.mem_cons_of_mem h hg)) x

theorem performSearchLogic_time_invariant (orama : Orama) (params : SearchParams)
    (lang : Option String) (t0 t1 t1' : Nat) :
    sameExceptElapsed (performSearchLogic orama params lang t0 t1)
      (performSearchLogic orama params lang t0 t1') := by
  simp only [performSearchLogic]
  cases h : innerFullTextSearch orama params lang with
  | error e => simp [sameExceptElapsed]
  | ok arr => simp [sameExceptElapsed]

/-- C5: for identical params, the search on an instance with no hooks and the
search on the same instance with only no-op hooks produce envelopes equal in
every field except `elapsed`; the former returns a direct (synchronous) value,
the latter a pending result of the same shape. -/
theorem noop_hooks_equiv (orama : Orama) (params : SearchParams) (lang : Option String)
    (t0 t1 t1' : Nat)
    (hb : ∀ h ∈ orama.beforeSearch, h = id)
    (ha : ∀ h ∈ orama.afterSearch, h = id)
    (hne : orama.beforeSearch.length ≠ 0 ∨ orama.afterSearch.length ≠ 0) :
    ∃ r r',
      fullTextSearch { orama with beforeSearch := [], afterSearch := [] } params lang t0 t1 =
        SearchReturn.sync r ∧
      fullTextSearch orama params lang t0 t1' = SearchReturn.pending r' ∧
      sameExceptElapsed r r' := by
  refine ⟨performSearchLogic orama params lang t0 t1,
    executeSearchAsync orama params lang t0 t1', ?_, ?_, ?_⟩
  · simp only [fullTextSearch, List.length_nil]
    rw [performSearchLogic_hooks_irrelevant]
    rfl
  · have hasync : (orama.beforeSearch.length != 0 || orama.afterSearch.length != 0) = true := by
      rcases hne with h | h <;> simp [h]
    simp only [fullTextSearch, hasync]
    rfl
  · have hfb := foldl_apply_id orama.beforeSearch hb params
    have htime := performSearchLogic_time_invariant orama params lang t0 t1 t1'
    simp only [executeSearchAsync, hfb]
    cases h : performSearchLogic orama params lang t0 t1' with
    | error e =>
      rw [h] at htime
      exact htime
    | ok r =>
      rw [h] at htime
      have hfa := foldl_apply_id orama.afterSearch ha r
      simpa [hfa] using htime

/-- C5 witness: a concrete instance with one no-op pre-search hook versus the
same instance with the hook removed. -/
theorem noop_hooks_equiv_witness :
    ∃ r r',
      fullTextSearch { c5Orama with beforeSearch := [], afterSearch := [] } {} none 0 0 =
        SearchReturn.sync r ∧
      fullTextSearch c5Orama {} none 0 0 = SearchReturn.pending r' ∧
      sameExceptElapsed r r' := by
  refine noop_hooks_equiv c5Orama {} none 0 0 0 ?_ ?_ (Or.inl (by decide))
  · intro h hh
    simp only [c5Orama, baseOrama] at hh
    simp at hh
    subst hh
    rfl
  · intro h hh
    simp only [c5Orama, baseOrama] at hh
    simp at hh

/-! ## C6: word-boundary and literal matching -/

theorem beq_false_of_contains_mismatch (c d : Char)
    (h : regexMetachars.contains c ≠ regexMetachars.contains d) : (c == d) = false := by
  cases hx : c == d with
  | false => rfl
  | true =>
    have hcd : c = d := by simpa using hx
    rw [hcd] at h
    exact absurd rfl h

theorem escapeRegex_cons (c : Char) (t : List Char) :
    escapeRegex (c :: t) =
      (if regexMetachars.contains c then ['\\', c] else [c]) ++ escapeRegex t := by
  simp [escapeRegex]

theorem parseRegex_esc_cons (d : Char) (rest : List Char) :
    parseRegex ('\\' :: d :: rest) =
      (if d == 'b' then RAtom.wb else RAtom.lit d) :: parseRegex rest := rfl

theorem parseRegex_lit_cons (c : Char) (rest : List Char) (h1 : (c == '\\') = false)
    (h2 : (c == '.') = false) :
    parseRegex (c :: rest) = RAtom.lit c :: parseRegex rest := by
  rw [parseRegex.eq_def]
  simp [h1, h2]

/-- Parsing an escaped token (followed by anything) yields one literal atom per
token character. -/
theorem parseRegex_escape_append (r : List Char) :
    ∀ t : List Char, parseRegex (escapeRegex t ++ r) = t.map RAtom.lit ++ parseRegex r := by
  intro t
  induction t with
  | nil => simp [escapeRegex]
  | cons c t ih =>
    rw [escapeRegex_cons]
    by_cases hc : regexMetachars.contains c = true
    · have hcb : (c == 'b') = false :=
        beq_false_of_contains_mismatch c 'b' (by rw [hc]; decide)
      rw [if_pos hc]
      simp only [List.cons_append, List.nil_append, List.append_assoc]
      rw [parseRegex_esc_cons]
      simp [hcb, ih]
    · have hc' : regexMetachars.contains c = false := by
        cases hx : regexMetachars.contains c with
        | false => rfl
        | true => exact absurd hx hc
      have h1 : (c == '\\') = false :=
        beq_false_of_contains_mismatch c '\\' (by rw [hc']; decide)
      have h2 : (c == '.') = false :=
        beq_false_of_contains_mismatch c '.' (by rw [hc']; decide)
      rw [if_neg hc]
      simp only [List.cons_append, List.nil_append, List.append_assoc]
      rw [parseRegex_lit_cons c _ h1 h2]
      simp [ih]

/-- A sequence of literal atoms matches at the current position exactly when
the token is a prefix of the remaining subject. -/
theorem matchHere_lits (t : List Char) :
    ∀ (prev : Option Char) (s : List Char),
      matchHere (t.map RAtom.lit) prev s = true ↔ t <+: s := by
  induction t with
  | nil => intro prev s; simp [matchHere]
  | cons c t ih =>
    intro prev s
    cases s with
    | nil => simp [matchHere]
    | cons d s => simp [matchHere, ih, List.cons_prefix_cons]

/-- A sequence of literal atoms matches at some position exactly when the token
is an infix of the subject. -/
theorem searchFrom_lits (t : List Char) :
    ∀ (prev : Option Char) (s : List Char),
      searchFrom (t.map RAtom.lit) prev s = true ↔ t <:+: s := by
  intro prev s
  induction s generalizing prev with
  | nil =>
    rw [searchFrom]
    rw [matchHere_lits]
    simp [List.infix_nil, List.prefix_nil]
  | cons c s ih =>
    rw [searchFrom]
    rw [Bool.or_eq_true]
    rw [matchHere_lits, ih, List.infix_cons_iff]

theorem lastCtx_all_word :
    ∀ (t : List Char) (prev : Option Char), t ≠ [] → (∀ c ∈ t, isWordChar c = true) →
      optIsWord (lastCtx prev t) = true := by
  intro t
  induction t with
  | nil => intro prev ht _; exact absurd rfl ht
  | cons c t ih =>
    intro prev _ hw
    cases t with
    | nil => simpa [lastCtx, optIsWord] using hw c (List.mem_cons_self c [])
    | cons e t2 =>
      exact ih (some c) (by simp) (fun x hx => hw x (List.mem_cons_of_mem c hx))

theorem matchHere_lits_wb :
    ∀ (t : List Char) (prev : Option Char) (s : List Char),
      (∀ c ∈ t, isWordChar c = true) →
      (matchHere (t.map RAtom.lit ++ [RAtom.wb]) prev s = true ↔
        ∃ post, s = t ++ post ∧
          (optIsWord (lastCtx prev t) != optIsWord post.head?) = true) := by
  intro t
  induction t with
  | nil =>
    intro prev s _
    simp only [List.map_nil, List.nil_append]
    constructor
    · intro h
      refine ⟨s, rfl, ?_⟩
      simpa [matchHere, lastCtx] using h
    · rintro ⟨post, rfl, hb⟩
      simpa [matchHere, lastCtx] using hb
  | cons c t ih =>
    intro prev s hw
    have hw' : ∀ x ∈ t, isWordChar x = true :=
      fun x hx => hw x (List.mem_cons_of_mem c hx)
    cases s with
    | nil =>
      simp [matchHere]
    | cons d s' =>
      simp only [List.map_cons, List.cons_append]
      constructor
      · intro h
        have h' : ((c == d) &&
            matchHere (t.map RAtom.lit ++ [RAtom.wb]) (some d) s') = true := h
        rw [Bool.and_eq_true] at h'
        obtain ⟨hcd, hrest⟩ := h'
        have hc : c = d := by simpa using hcd
        obtain ⟨post, hpost, hb⟩ := (ih (some d) s' hw').mp hrest
        refine ⟨post, ?_, ?_⟩
        · rw [hc, hpost]
        · rw [hc]
          simpa [lastCtx] using hb
      · rintro ⟨post, heq, hb⟩
        have heq' : d :: s' = c :: (t ++ post) := by simpa using heq
        injection heq' with h1 h2
        rw [h1]
        have hrest : matchHere (t.map RAtom.lit ++ [RAtom.wb]) (some c) s' = true :=
          (ih (some c) s' hw').mpr ⟨post, h2, by simpa [lastCtx] using hb⟩
        show ((c == c) &&
          matchHere (t.map RAtom.lit ++ [RAtom.wb]) (some c) s') = true
        rw [Bool.and_eq_true]
        exact ⟨by simp, hrest⟩

theorem matchHere_wb (t : List Char) (ht : t ≠ []) (hw : ∀ c ∈ t, isWordChar c = true)
    (prev : Option Char) (s : List Char) :
    matchHere (RAtom.wb :: (t.map RAtom.lit ++ [RAtom.wb])) prev s = true ↔
      optIsWord prev = false ∧
        ∃ post, s = t ++ post ∧ optIsWord post.head? = false := by
  have hbne1 : ∀ x : Bool, ((x != true) = true) ↔ x = false := by decide
  have hbne2 : ∀ y : Bool, ((true != y) = true) ↔ y = false := by decide
  cases t with
  | nil => exact absurd rfl ht
  | cons c0 t' =>
    have hc0 : isWordChar c0 = true := hw c0 (List.mem_cons_self c0 t')
    have hlast : optIsWord (lastCtx prev (c0 :: t')) = true :=
      lastCtx_all_word (c0 :: t') prev (by simp) hw
    constructor
    · intro h
      have h' : ((optIsWord prev != optIsWord s.head?) &&
          matchHere ((c0 :: t').map RAtom.lit ++ [RAtom.wb]) prev s) = true := h
      rw [Bool.and_eq_true] at h'
      obtain ⟨hbd, hrest⟩ := h'
      obtain ⟨post, hpost, hb2⟩ := (matchHere_lits_wb (c0 :: t') prev s hw).mp hrest
      rw [hlast] at hb2
      refine ⟨?_, post, hpost, (hbne2 _).mp hb2⟩
      rw [hpost] at hbd
      have hhead : ((c0 :: t') ++ post).head? = some c0 := rfl
      rw [hhead] at hbd
      have hcw : optIsWord (some c0) = true := by simpa [optIsWord] using hc0
      rw [hcw] at hbd
      exact (hbne1 _).mp hbd
    · rintro ⟨hprev, post, rfl, hpost⟩
      have hrest : matchHere ((c0 :: t').map RAtom.lit ++ [RAtom.wb]) prev
          ((c0 :: t') ++ post) = true :=
        (matchHere_lits_wb (c0 :: t') prev _ hw).mpr
          ⟨post, rfl, by rw [hlast, hpost]; rfl⟩
      have hbd : (optIsWord prev != optIsWord (((c0 :: t') ++ post).head?)) = true := by
        have hhead : ((c0 :: t') ++ post).head? = some c0 := rfl
        rw [hhead, hprev]
        simpa [optIsWord] using hc0
      show ((optIsWord prev != optIsWord (((c0 :: t') ++ post).head?)) &&
        matchHere ((c0 :: t').map RAtom.lit ++ [RAtom.wb]) prev ((c0 :: t') ++ post)) = true
      rw [Bool.and_eq_true]
      exact ⟨hbd, hrest⟩

theorem searchFrom_wb (t : List Char) (ht : t ≠ []) (hw : ∀ c ∈ t, isWordChar c = true) :
    ∀ (s : List Char) (prev : Option Char),
      searchFrom (RAtom.wb :: (t.map RAtom.lit ++ [RAtom.wb])) prev s = true ↔
        ∃ pre post, s = pre ++ t ++ post ∧
          optIsWord (lastCtx prev pre) = false ∧ optIsWord post.head? = false := by
  intro s
  induction s with
  | nil =>
    intro prev
    rw [searchFrom, matchHere_wb t ht hw]
    constructor
    · rintro ⟨_, post, heq, _⟩
      exact absurd (List.append_eq_nil.mp heq.symm).1 ht
    · rintro ⟨pre, post, heq, _, _⟩
      have h2 := (List.append_eq_nil.mp heq.symm).1
      exact absurd (List.append_eq_nil.mp h2).2 ht
  | cons c s ih =>
    intro prev
    rw [searchFrom, Bool.or_eq_true, matchHere_wb t ht hw, ih (some c)]
    constructor
    · rintro (⟨hprev, post, heq, hpost⟩ | ⟨pre, post, heq, hpre, hpost⟩)
      · exact ⟨[], post, by simpa using heq, by simpa [lastCtx] using hprev, hpost⟩
      · exact ⟨c :: pre, post, by simp [heq], by simpa [lastCtx] using hpre, hpost⟩
    · rintro ⟨pre, post, heq, hpre, hpost⟩
      cases pre with
      | nil =>
        exact Or.inl ⟨by simpa [lastCtx] using hpre, post, by simpa using heq, hpost⟩
      | cons c0 pre' =>
        have heq' : c :: s = c0 :: (pre' ++ t ++ post) := by simpa using heq
        injection heq' with h1 h2
        subst h1
        exact Or.inr ⟨pre', post, h2, by simpa [lastCtx] using hpre, hpost⟩

theorem parseRegex_wb_pattern (token : List Char) :
    parseRegex (['\\', 'b'] ++ escapeRegex token ++ ['\\', 'b']) =
      RAtom.wb :: (token.map RAtom.lit ++ [RAtom.wb]) := by
  have h1 : ['\\', 'b'] ++ escapeRegex token ++ ['\\', 'b'] =
      '\\' :: 'b' :: (escapeRegex token ++ ['\\', 'b']) := by simp
  rw [h1, parseRegex_esc_cons]
  rw [parseRegex_escape_append]
  simp [parseRegex]

/-- C6: in exact mode, a split token consisting solely of ASCII word characters
(letters, digits, underscore) matches the stored string exactly at
word-boundary occurrences — so `cat` matches `the cat sat` but not
`category` — while a token containing any non-word character matches as a
regex-escaped literal substring, so `c.at` matches the literal text `c.at` and
not `cXat`. -/
theorem exact_token_match_semantics :
    (∀ token stored : List Char,
      (isWordOnly token = true →
        (matchesToken stored token = true ↔ wordBoundaryOccurs token stored)) ∧
      (isWordOnly token = false →
        (matchesToken stored token = true ↔ token <:+: stored))) ∧
    matchesToken "the cat sat".data "cat".data = true ∧
    matchesToken "category".data "cat".data = false ∧
    matchesToken "xc.aty".data "c.at".data = true ∧
    matchesToken "cXat".data "c.at".data = false := by
  refine ⟨fun token stored => ⟨?_, ?_⟩, by decide, by decide, by decide, by decide⟩
  · intro hwordonly
    have hparts : (!token.isEmpty) = true ∧ token.all isWordChar = true := by
      have h0 : ((!token.isEmpty) && token.all isWordChar) = true := hwordonly
      rw [Bool.and_eq_true] at h0
      exact h0
    have ht : token ≠ [] := by
      cases token with
      | nil => simp at hparts
      | cons c t => exact List.cons_ne_nil c t
    have hw : ∀ c ∈ token, isWordChar c = true := List.all_eq_true.mp hparts.2
    rw [matchesToken, if_pos hwordonly, parseRegex_wb_pattern, regexTest,
      searchFrom_wb token ht hw stored none]
    exact Iff.rfl
  · intro hnw
    rw [matchesToken, if_neg (by rw [hnw]; exact Bool.false_ne_true)]
    have hesc : parseRegex (escapeRegex token) = token.map RAtom.lit := by
      have h := parseRegex_escape_append [] token
      simpa [parseRegex] using h
    rw [hesc, regexTest, searchFrom_lits]

/-- C6 witness: the word-only token `cat` occurs at a word boundary in
`the cat sat` (via the general theorem), and the non-word token `c.at` is an
infix of `xc.aty`. -/
theorem exact_token_match_semantics_witness :
    wordBoundaryOccurs "cat".data "the cat sat".data ∧
    "c.at".data <:+: "xc.aty".data := by
  constructor
  · exact ((exact_token_match_semantics.1 "cat".data "the cat sat".data).1
      (by decide)).mp (by decide)
  · exact ((exact_token_match_semantics.1 "c.at".data "xc.aty".data).2
      (by decide)).mp (by decide)
